import Mathlib

/-!
Verification development for the django-nitro repository.

The central artefact under study is the multi-step form wizard
(`nitro/wizards.py`) together with the dotted field-path resolver of the
declarative table layer (`nitro/tables.py`).  The Python code is given a
shallow embedding below: Python dictionaries become association lists with
dict update semantics, the Django session becomes an explicit `Session`
value threaded through each operation, HTTP requests become a `Request`
record, and the external Django form contract (`is_valid` /
`cleaned_data`) becomes a `FormClass` record carrying its validation
function.  Uninteresting context entries (template names, the
`progress_percent` float, `request.FILES` which the engine merely forwards
to the validator) are omitted; everything a claim touches is modelled.
-/

set_option autoImplicit false

namespace Nitro

/-- Python dict lookup `d.get(k)` on an association list: first entry wins. -/
def dictGet {α : Type} : List (String × α) → String → Option α
  | [], _ => none
  | (k', v) :: rest, k => if k' = k then some v else dictGet rest k

/-- Python dict assignment `d[k] = v`: replace the existing entry in place,
appending at the end when the key is fresh. -/
def dictSet {α : Type} : List (String × α) → String → α → List (String × α)
  | [], k, v => [(k, v)]
  | (k', v') :: rest, k, v =>
    if k' = k then (k, v) :: rest else (k', v') :: dictSet rest k v

/-- Python dict deletion `del d[k]`: drop the entry (any entry) for `k`. -/
def dictDel {α : Type} : List (String × α) → String → List (String × α)
  | [], _ => []
  | (k', v') :: rest, k =>
    if k' = k then dictDel rest k else (k', v') :: dictDel rest k

/-- Cleaned/submitted field values of a single step (field name → value). -/
abbrev FieldData := List (String × String)

/-- `WizardData`: step name → that step's cleaned field values. -/
abbrev WizardData := List (String × FieldData)

/-- The Django session as seen by the wizard: session key → wizard data. -/
abbrev Session := List (String × WizardData)

/-- External Django form-class contract (spec section 6): constructed with
initial/data kwargs, `is_valid` succeeds exactly when `validate` returns the
cleaned data. -/
structure FormClass where
  validate : FieldData → Option FieldData

/-- Kwargs computed by `NitroWizard.get_form_kwargs`. -/
structure FormKwargs where
  initial : FieldData
  data : Option FieldData

/-- A bound or unbound form instance: a form class applied to its kwargs. -/
structure Form where
  form_class : FormClass
  kwargs : FormKwargs

/-- Django `form.is_valid()`: an unbound form is invalid, a bound form is
valid iff its validator accepts the submitted data. -/
def Form.is_valid (f : Form) : Bool :=
  match f.kwargs.data with
  | some d => (f.form_class.validate d).isSome
  | none => false

/-- Django `form.cleaned_data`, meaningful after a successful `is_valid`. -/
def Form.cleaned_data (f : Form) : FieldData :=
  match f.kwargs.data with
  | some d => (f.form_class.validate d).getD []
  | none => []

/-- `WizardStep` from `nitro/wizards.py`: a named step with an optional form
class, template/title metadata, a skip flag and an optional visibility
condition over the accumulated wizard data. -/
structure WizardStep where
  name : String
  form_class : Option FormClass
  template : String
  title : String
  skip_allowed : Bool
  condition : Option (WizardData → Bool)

/-- Static configuration of a `NitroWizard` subclass. -/
structure Wizard where
  wizard_name : String
  steps : List WizardStep

inductive Method where
  | GET
  | POST
deriving DecidableEq

/-- An HTTP request as the wizard sees it: method, path, query parameters,
POST parameters, and the session store. -/
structure Request where
  method : Method
  path : String
  GET : List (String × String)
  POST : List (String × String)
  session : Session

/-- The wizard-relevant fields assembled by `get_context_data`
(`progress_percent`, a float, is omitted; `is_last_step` in the context uses
the `==` comparison of the source, over the integers). -/
structure Context where
  wizard_name : String
  steps : List WizardStep
  current_step : Option WizardStep
  current_step_index : Nat
  total_steps : Nat
  is_first_step : Bool
  is_last_step : Bool
  wizard_data : WizardData
  form : Option Form

/-- Outcome of a wizard request: a redirect, a rendered page, the terminal
`done(wizard_data)` call, or an uncaught Python exception (`error`). -/
inductive Response where
  | redirect (url : String)
  | render (ctx : Context)
  | done (data : WizardData)
  | error

/-- `NitroWizard.session_key`: `f'wizard_{self.wizard_name}'`. -/
def session_key (w : Wizard) : String :=
  "wizard_" ++ w.wizard_name

/-- `NitroWizard.get_wizard_data`: `session.get(key, {})`. -/
def get_wizard_data (w : Wizard) (req : Request) : WizardData :=
  (dictGet req.session (session_key w)).getD []

/-- `NitroWizard.save_wizard_data`: `session[key] = data`. -/
def save_wizard_data (w : Wizard) (req : Request) (data : WizardData) : Session :=
  dictSet req.session (session_key w) data

/-- `NitroWizard.clear_wizard_data`: `del session[key]` guarded by a
membership test; deleting an absent key is the identity here, matching the
guarded Python code observably. -/
def clear_wizard_data (w : Wizard) (req : Request) : Session :=
  dictDel req.session (session_key w)

/-- `NitroWizard.get_step_data`: `get_wizard_data().get(step_name, {})`. -/
def get_step_data (w : Wizard) (req : Request) (step_name : String) : FieldData :=
  (dictGet (get_wizard_data w req) step_name).getD []

/-- `NitroWizard.save_step_data`: read, overwrite one key, write through. -/
def save_step_data (w : Wizard) (req : Request) (step_name : String)
    (data : FieldData) : Session :=
  save_wizard_data w req (dictSet (get_wizard_data w req) step_name data)

/-- The per-step guard of `get_active_steps`:
`step.condition is None or step.condition(wizard_data)`. -/
def stepActive (step : WizardStep) (wizard_data : WizardData) : Bool :=
  match step.condition with
  | none => true
  | some c => c wizard_data

/-- `NitroWizard.get_active_steps`. -/
def get_active_steps (w : Wizard) (req : Request) : List WizardStep :=
  w.steps.filter (fun step => stepActive step (get_wizard_data w req))

/-- The step-name parameter resolution of `get_current_step_index`:
`request.GET.get('step') or request.POST.get('current_step')`, with Python's
truthiness semantics for `or` (an empty string falls through). -/
def step_name_param (req : Request) : Option String :=
  match dictGet req.GET "step" with
  | some s => if s = "" then dictGet req.POST "current_step" else some s
  | none => dictGet req.POST "current_step"

/-- The enumerate-and-return loop of `get_current_step_index`: index of the
first step whose name equals the parameter. -/
def find_step_index : List WizardStep → String → Option Nat
  | [], _ => none
  | step :: rest, n =>
    if step.name = n then some 0 else (find_step_index rest n).map (· + 1)

/-- `NitroWizard.get_current_step_index`: the first matching active step's
index, or 0 when the parameter is absent, falsy, or unmatched. -/
def get_current_step_index (w : Wizard) (req : Request) : Nat :=
  match step_name_param req with
  | some step_name =>
    if step_name = "" then 0
    else
      match find_step_index (get_active_steps w req) step_name with
      | some i => i
      | none => 0
  | none => 0

/-- `NitroWizard.get_current_step`. -/
def get_current_step (w : Wizard) (req : Request) : Option WizardStep :=
  match (get_active_steps w req)[get_current_step_index w req]? with
  | some s => some s
  | none => (get_active_steps w req)[0]?

/-- `NitroWizard.is_last_step`: `index >= len(steps) - 1` over the integers
(for an empty active list the right-hand side is `-1` and the test holds). -/
def is_last_step (w : Wizard) (req : Request) : Bool :=
  decide ((get_current_step_index w req : Int) ≥ (get_active_steps w req).length - 1)

/-- `NitroWizard.get_form_kwargs`: initial values from the saved step data,
bound to the POST payload on a POST request. -/
def get_form_kwargs (w : Wizard) (req : Request) (step : WizardStep) : FormKwargs :=
  { initial := get_step_data w req step.name
    data := if req.method = Method.POST then some req.POST else none }

/-- `NitroWizard.get_form`: instantiate the (current or given) step's form
class, or `None` when there is no step or no form class. -/
def get_form (w : Wizard) (req : Request) (stepArg : Option WizardStep) : Option Form :=
  match (match stepArg with | none => get_current_step w req | some s => some s) with
  | none => none
  | some st =>
    match st.form_class with
    | none => none
    | some fc => some { form_class := fc, kwargs := get_form_kwargs w req st }

/-- `NitroWizard.get_context_data`; `formArg = some f` models an explicit
`form=f` keyword, `none` the absent keyword. -/
def get_context_data (w : Wizard) (req : Request) (formArg : Option Form) : Context :=
  { wizard_name := w.wizard_name
    steps := get_active_steps w req
    current_step := get_current_step w req
    current_step_index := get_current_step_index w req
    total_steps := (get_active_steps w req).length
    is_first_step := decide (get_current_step_index w req = 0)
    is_last_step :=
      decide ((get_current_step_index w req : Int) = (get_active_steps w req).length - 1)
    wizard_data := get_wizard_data w req
    form := match formArg with
      | some f => some f
      | none => get_form w req none }

/-- `NitroWizard.get_step_url`: `f'{self.request.path}?step={step_name}'`. -/
def get_step_url (req : Request) (step_name : String) : String :=
  req.path ++ "?step=" ++ step_name

/-- `NitroWizard.get_cancel_url`. -/
def get_cancel_url (_w : Wizard) : String :=
  "/"

/-- `request.POST.get('wizard_action', 'next')`. -/
def wizard_action (req : Request) : String :=
  (dictGet req.POST "wizard_action").getD "next"

/-- `NitroWizard.go_next`: redirect to the next active step, or call
`done(get_wizard_data())` when there is none. -/
def go_next (w : Wizard) (req : Request) : Response × Session :=
  match (get_active_steps w req)[get_current_step_index w req + 1]? with
  | some st => (Response.redirect (get_step_url req st.name), req.session)
  | none => (Response.done (get_wizard_data w req), req.session)

/-- `NitroWizard.go_back`: redirect to the previous step, clamping at the
first; `steps[0]` on an empty active list is Python's `IndexError`. -/
def go_back (w : Wizard) (req : Request) : Response :=
  if (get_current_step_index w req : Int) - 1 ≥ 0 then
    match (get_active_steps w req)[get_current_step_index w req - 1]? with
    | some st => Response.redirect (get_step_url req st.name)
    | none => Response.error
  else
    match (get_active_steps w req)[0]? with
    | some st => Response.redirect (get_step_url req st.name)
    | none => Response.error

/-- `NitroWizard.skip_step`: advance when the current step allows skipping,
otherwise re-render unchanged. -/
def skip_step (w : Wizard) (req : Request) : Response × Session :=
  match get_current_step w req with
  | some current =>
    if current.skip_allowed then go_next w req
    else (Response.render (get_context_data w req none), req.session)
  | none => (Response.render (get_context_data w req none), req.session)

/-- `NitroWizard.cancel`: clear this wizard's data and redirect away. -/
def cancel (w : Wizard) (req : Request) : Response × Session :=
  (Response.redirect (get_cancel_url w), clear_wizard_data w req)

/-- `NitroWizard.get`. -/
def get (w : Wizard) (req : Request) : Response × Session :=
  (Response.render (get_context_data w req none), req.session)

/-- The request as the later lines of `post` see it after
`self.save_step_data(self.get_current_step().name, form.cleaned_data)` has
mutated the session. -/
def after_save (w : Wizard) (req : Request) (step : WizardStep) (form : Form) : Request :=
  { req with session := save_step_data w req step.name form.cleaned_data }

/-- `NitroWizard.post`, line for line: dispatch on `wizard_action`; validate
the current step's form when one exists (re-render on failure, save the
cleaned data on success, evaluating everything after the save against the
updated session, exactly as the mutating Python does); then finish on an
explicit `finish` action or on the last step, else go to the next step.  The
`Response.error` branch is the `AttributeError` Python would raise if
`get_current_step()` were `None` while a form exists (unreachable). -/
def post (w : Wizard) (req : Request) : Response × Session :=
  if wizard_action req = "cancel" then
    cancel w req
  else if wizard_action req = "back" then
    (go_back w req, req.session)
  else if wizard_action req = "skip" then
    skip_step w req
  else
    match get_form w req none with
    | some form =>
      if form.is_valid = false then
        (Response.render (get_context_data w req (some form)), req.session)
      else
        match get_current_step w req with
        | none => (Response.error, req.session)
        | some step =>
          if wizard_action req = "finish" ∨
              is_last_step w (after_save w req step form) = true then
            (Response.done (get_wizard_data w (after_save w req step form)),
              (after_save w req step form).session)
          else
            go_next w (after_save w req step form)
    | none =>
      if wizard_action req = "finish" ∨ is_last_step w req = true then
        (Response.done (get_wizard_data w req), req.session)
      else
        go_next w req

/-- A Python runtime value as far as `get_field_value` (`nitro/tables.py`)
can observe it: `None`, a callable (calling it yields `result`), an opaque
leaf rendered from a string, or an object with named attributes.
`getattr(v, a, None)` on a non-object leaf yields the `None` default. -/
inductive PyVal where
  | none
  | callable (result : PyVal)
  | str (s : String)
  | obj (attrs : List (String × PyVal))

/-- Python `value is None`. -/
def isNone : PyVal → Bool
  | PyVal.none => true
  | _ => false

/-- Python `getattr(value, attr, None)`. -/
def pyGetattr (v : PyVal) (attr : String) : PyVal :=
  match v with
  | PyVal.obj attrs => (dictGet attrs attr).getD PyVal.none
  | _ => PyVal.none

/-- The trailing `if callable(value): value = value()` of `get_field_value`. -/
def maybeCall : PyVal → PyVal
  | PyVal.callable r => r
  | v => v

/-- The traversal loop of `get_field_value`: short-circuit to `None` before
each attribute access, call the final value if callable. -/
def resolve_attrs : PyVal → List String → PyVal
  | value, [] => maybeCall value
  | value, attr :: rest =>
    if isNone value then PyVal.none
    else resolve_attrs (pyGetattr value attr) rest

/-- Accumulator loop for `str.split('.')`. -/
def splitDotAux : List Char → List Char → List String
  | [], acc => [String.mk acc.reverse]
  | c :: rest, acc =>
    if c = '.' then String.mk acc.reverse :: splitDotAux rest []
    else splitDotAux rest (c :: acc)

/-- Python `field_path.split('.')`. -/
def splitDot (s : String) : List String :=
  splitDotAux s.data []

/-- `get_field_value` from `nitro/tables.py`. -/
def get_field_value (obj : PyVal) (field_path : String) : PyVal :=
  resolve_attrs obj (splitDot field_path)

/-- Pure attribute chain without the short-circuit or the final call; used to
state what the intermediate values of the traversal are. -/
def chainAttrs : PyVal → List String → PyVal
  | v, [] => v
  | v, attr :: rest => chainAttrs (pyGetattr v attr) rest

/-- Wizard data read out of an explicit session value (what
`get_wizard_data` computes from `request.session`). -/
def wizard_data_of (w : Wizard) (s : Session) : WizardData :=
  (dictGet s (session_key w)).getD []

/-- Session states reachable by the wizard engine: any session in which this
wizard's key is still absent (first visit), closed under handling one POST
request carrying the current session. -/
inductive Reachable (w : Wizard) : Session → Prop where
  | init (s : Session) (h : dictGet s (session_key w) = none) : Reachable w s
  | step (req : Request) (h : Reachable w req.session) : Reachable w (post w req).2

/-- One wizard-data entry is justified: it belongs to a declared step
carrying a form whose validator accepted some submission with exactly this
cleaned data. -/
def entryOK (w : Wizard) (e : String × FieldData) : Prop :=
  ∃ step ∈ w.steps, step.name = e.1 ∧
    ∃ fc, step.form_class = some fc ∧ ∃ pd, fc.validate pd = some e.2

/-- The C5 invariant on a session: every stored entry is justified. -/
def dataInv (w : Wizard) (s : Session) : Prop :=
  ∀ e ∈ wizard_data_of w s, entryOK w e

/-- Fixture: a form class that accepts any submission and returns it as the
cleaned data. -/
def fcEcho : FormClass := ⟨fun d => some d⟩

/-- Fixture: a form class that rejects every submission. -/
def fcReject : FormClass := ⟨fun _ => none⟩

/-- Fixture: step named `a` with the echo form. -/
def stepA : WizardStep := ⟨"a", some fcEcho, "", "", false, none⟩

/-- Fixture: step with the rejecting form. -/
def stepBad : WizardStep := ⟨"bad", some fcReject, "", "", false, none⟩

/-- Fixture: formless, skippable step. -/
def stepSkip : WizardStep := ⟨"s", none, "", "", true, none⟩

/-- Fixture: formless, unconditioned, non-skippable step. -/
def stepPlain (n : String) : WizardStep := ⟨n, none, "", "", false, none⟩

/-- Fixture: step whose condition is always false. -/
def stepOff : WizardStep := ⟨"off", none, "", "", false, some (fun _ => false)⟩

/-- Fixture wizards over the steps above. -/
def wEcho : Wizard := ⟨"wz", [stepA]⟩

def wBad : Wizard := ⟨"wz", [stepBad]⟩

def wSkip : Wizard := ⟨"wz", [stepSkip]⟩

def wNames : Wizard := ⟨"wz", [stepPlain "a", stepPlain ""]⟩

def wOff : Wizard := ⟨"wz", [stepOff]⟩

def wAB : Wizard := ⟨"wz", [stepPlain "a", stepPlain "b"]⟩

/-- Fixture: a GET naming a step that does not exist. -/
def reqStepZ : Request := ⟨Method.GET, "/p", [("step", "zzz")], [], []⟩

/-- Fixture: a POST whose `current_step` field is the empty string. -/
def reqEmptyName : Request := ⟨Method.POST, "/p", [], [("current_step", "")], []⟩

/-- Fixture: a POST request with the given parameters and session. -/
def reqOf (post_params : List (String × String)) (sess : Session) : Request :=
  ⟨Method.POST, "/p", [], post_params, sess⟩

/-- Fixture: a plain POST submission of one field. -/
def reqFv : Request := reqOf [("f", "v")] []

/-- Fixture: a GET for step `a` carrying the session produced by submitting
`reqFv` to the echo wizard. -/
def reqAfterEcho : Request :=
  ⟨Method.GET, "/p", [("step", "a")], [], (post wEcho reqFv).2⟩

section DictLemmas

variable {α : Type}

theorem dictGet_set_self (m : List (String × α)) (k : String) (v : α) :
    dictGet (dictSet m k v) k = some v := by
  induction m with
  | nil => simp [dictSet, dictGet]
  | cons p rest ih =>
    obtain ⟨k', v'⟩ := p
    by_cases h : k' = k <;> simp [dictSet, dictGet, h, ih]

theorem dictGet_set_ne (m : List (String × α)) {k k' : String} (v : α)
    (h : k ≠ k') : dictGet (dictSet m k v) k' = dictGet m k' := by
  induction m with
  | nil => simp [dictSet, dictGet, h]
  | cons p rest ih =>
    obtain ⟨k'', v''⟩ := p
    by_cases h2 : k'' = k
    · subst h2
      simp [dictSet, dictGet, h]
    · simp [dictSet, dictGet, h2, ih]

theorem dictGet_del_self (m : List (String × α)) (k : String) :
    dictGet (dictDel m k) k = none := by
  induction m with
  | nil => simp [dictDel, dictGet]
  | cons p rest ih =>
    obtain ⟨k', v'⟩ := p
    by_cases h : k' = k <;> simp [dictDel, dictGet, h, ih]

theorem dictGet_del_ne (m : List (String × α)) {k k' : String}
    (h : k ≠ k') : dictGet (dictDel m k) k' = dictGet m k' := by
  induction m with
  | nil => simp [dictDel, dictGet]
  | cons p rest ih =>
    obtain ⟨k'', v''⟩ := p
    by_cases h2 : k'' = k
    · subst h2
      simp [dictDel, dictGet, h, ih]
    · simp [dictDel, dictGet, h2, ih]

theorem mem_dictSet {m : List (String × α)} {k : String} {v : α}
    {e : String × α} (h : e ∈ dictSet m k v) : e ∈ m ∨ e = (k, v) := by
  induction m with
  | nil => simpa [dictSet] using h
  | cons p rest ih =>
    obtain ⟨k', v'⟩ := p
    by_cases h2 : k' = k
    · simp only [dictSet, if_pos h2] at h
      rcases List.mem_cons.mp h with h3 | h3
      · exact Or.inr h3
      · exact Or.inl (List.mem_cons_of_mem _ h3)
    · simp only [dictSet, if_neg h2] at h
      rcases List.mem_cons.mp h with h3 | h3
      · exact Or.inl (h3 ▸ List.mem_cons_self _ _)
      · rcases ih h3 with h4 | h4
        · exact Or.inl (List.mem_cons_of_mem _ h4)
        · exact Or.inr h4

end DictLemmas

theorem session_key_inj {w1 w2 : Wizard} (h : session_key w1 = session_key w2) :
    w1.wizard_name = w2.wizard_name := by
  have hd : ("wizard_" ++ w1.wizard_name).data = ("wizard_" ++ w2.wizard_name).data := by
    unfold session_key at h
    rw [h]
  simp only [String.data_append, List.append_cancel_left_eq] at hd
  cases w1n : w1.wizard_name with
  | mk d1 =>
    cases w2n : w2.wizard_name with
    | mk d2 =>
      rw [w1n, w2n] at hd
      exact congrArg String.mk (by simpa using hd)

theorem find_step_index_lt {l : List WizardStep} {n : String} {i : Nat}
    (h : find_step_index l n = some i) : i < l.length := by
  induction l generalizing i with
  | nil => simp [find_step_index] at h
  | cons st rest ih =>
    by_cases h2 : st.name = n
    · simp only [find_step_index, if_pos h2, Option.some.injEq] at h
      simp [← h]
    · simp only [find_step_index, if_neg h2] at h
      cases hr : find_step_index rest n with
      | none => rw [hr] at h; cases h
      | some j =>
        rw [hr] at h
        simp only [Option.map_some', Option.some.injEq] at h
        have := ih hr
        simp [← h]
        omega

theorem find_step_index_none {l : List WizardStep} {n : String}
    (h : ∀ st ∈ l, st.name ≠ n) : find_step_index l n = none := by
  induction l with
  | nil => rfl
  | cons st rest ih =>
    simp only [find_step_index, if_neg (h st (List.mem_cons_self st rest))]
    rw [ih fun s hs => h s (List.mem_cons_of_mem st hs)]
    rfl

theorem find_step_index_found {l : List WizardStep} {n : String}
    (h : ∃ st ∈ l, st.name = n) :
    ∃ i, find_step_index l n = some i ∧
      ∃ hi : i < l.length, (l.get ⟨i, hi⟩).name = n := by
  induction l with
  | nil => simp at h
  | cons st rest ih =>
    by_cases h2 : st.name = n
    · exact ⟨0, by simp [find_step_index, h2], by simp, h2⟩
    · obtain ⟨s, hs, hname⟩ := h
      rcases List.mem_cons.mp hs with rfl | hs2
      · exact absurd hname h2
      · obtain ⟨j, hj, hji, hjn⟩ := ih ⟨s, hs2, hname⟩
        refine ⟨j + 1, ?_, by simpa using hji, by simpa using hjn⟩
        simp [find_step_index, h2, hj]

theorem get_current_step_index_lt_or_zero (w : Wizard) (req : Request) :
    get_current_step_index w req = 0 ∨
      get_current_step_index w req < (get_active_steps w req).length := by
  unfold get_current_step_index
  cases step_name_param req with
  | none => exact Or.inl rfl
  | some sn =>
    by_cases h : sn = ""
    · simp [h]
    · simp only [if_neg h]
      cases hf : find_step_index (get_active_steps w req) sn with
      | none => exact Or.inl rfl
      | some i => exact Or.inr (find_step_index_lt hf)

theorem is_last_step_iff (w : Wizard) (req : Request) :
    is_last_step w req = true ↔
      (get_active_steps w req).length ≤ get_current_step_index w req + 1 := by
  unfold is_last_step
  rw [decide_eq_true_iff]
  omega

theorem go_next_session (w : Wizard) (req : Request) :
    (go_next w req).2 = req.session := by
  unfold go_next
  split <;> rfl

theorem go_next_done_iff (w : Wizard) (req : Request) :
    (∃ d, (go_next w req).1 = Response.done d) ↔
      (get_active_steps w req).length ≤ get_current_step_index w req + 1 := by
  constructor
  · rintro ⟨d, hd⟩
    by_contra hlen
    push_neg at hlen
    unfold go_next at hd
    rw [List.getElem?_eq_getElem hlen] at hd
    simp at hd
  · intro hlen
    refine ⟨get_wizard_data w req, ?_⟩
    unfold go_next
    rw [List.getElem?_eq_none hlen]

theorem go_next_done_data {w : Wizard} {req : Request} {d : WizardData}
    (h : (go_next w req).1 = Response.done d) : d = get_wizard_data w req := by
  unfold go_next at h
  split at h <;> simp_all

theorem skip_step_session (w : Wizard) (req : Request) :
    (skip_step w req).2 = req.session := by
  unfold skip_step
  split
  · split
    · exact go_next_session w req
    · rfl
  · rfl

theorem get_current_step_mem {w : Wizard} {req : Request} {st : WizardStep}
    (h : get_current_step w req = some st) : st ∈ w.steps := by
  cases hq : (get_active_steps w req)[get_current_step_index w req]? with
  | some s =>
    unfold get_current_step at h
    rw [hq] at h
    injection h with h'
    subst h'
    exact List.mem_of_mem_filter (List.getElem?_mem hq)
  | none =>
    unfold get_current_step at h
    rw [hq] at h
    exact List.mem_of_mem_filter (List.getElem?_mem (show _ = some st from h))

theorem mem_get_active_steps {w : Wizard} {req : Request} {st : WizardStep} :
    st ∈ get_active_steps w req ↔
      st ∈ w.steps ∧ stepActive st (get_wizard_data w req) = true := by
  unfold get_active_steps
  exact List.mem_filter

theorem get_form_none_some {w : Wizard} {req : Request} {f : Form}
    (h : get_form w req none = some f) :
    ∃ st, get_current_step w req = some st ∧ st.form_class = some f.form_class ∧
      f.kwargs = get_form_kwargs w req st := by
  unfold get_form at h
  cases hc : get_current_step w req with
  | none =>
    rw [hc] at h
    exact absurd h (by simp)
  | some st =>
    rw [hc] at h
    have h2 : (match st.form_class with
      | none => (none : Option Form)
      | some fc => some { form_class := fc, kwargs := get_form_kwargs w req st }) = some f := h
    cases hfc : st.form_class with
    | none =>
      rw [hfc] at h2
      exact absurd h2 (by simp)
    | some fc =>
      rw [hfc] at h2
      simp only [Option.some.injEq] at h2
      exact ⟨st, rfl, by rw [hfc, ← h2], by rw [← h2]⟩

theorem post_cancel_eq {w : Wizard} {req : Request}
    (h : wizard_action req = "cancel") : post w req = cancel w req := by
  unfold post
  rw [if_pos h]

theorem post_back_eq {w : Wizard} {req : Request}
    (h1 : wizard_action req ≠ "cancel") (h : wizard_action req = "back") :
    post w req = (go_back w req, req.session) := by
  unfold post
  rw [if_neg h1, if_pos h]

theorem post_skip_eq {w : Wizard} {req : Request}
    (h1 : wizard_action req ≠ "cancel") (h2 : wizard_action req ≠ "back")
    (h : wizard_action req = "skip") : post w req = skip_step w req := by
  unfold post
  rw [if_neg h1, if_neg h2, if_pos h]

theorem post_invalid_eq {w : Wizard} {req : Request} {f : Form}
    (h1 : wizard_action req ≠ "cancel") (h2 : wizard_action req ≠ "back")
    (h3 : wizard_action req ≠ "skip") (hf : get_form w req none = some f)
    (hv : f.is_valid = false) :
    post w req = (Response.render (get_context_data w req (some f)), req.session) := by
  unfold post
  rw [if_neg h1, if_neg h2, if_neg h3]
  simp [hf, hv]

theorem post_valid_eq {w : Wizard} {req : Request} {f : Form} {st : WizardStep}
    (h1 : wizard_action req ≠ "cancel") (h2 : wizard_action req ≠ "back")
    (h3 : wizard_action req ≠ "skip") (hf : get_form w req none = some f)
    (hv : f.is_valid = true) (hc : get_current_step w req = some st) :
    post w req =
      if wizard_action req = "finish" ∨ is_last_step w (after_save w req st f) = true then
        (Response.done (get_wizard_data w (after_save w req st f)),
          (after_save w req st f).session)
      else go_next w (after_save w req st f) := by
  have hv' : ¬ (f.is_valid = false) := by simp [hv]
  unfold post
  rw [if_neg h1, if_neg h2, if_neg h3]
  simp only [hf]
  rw [if_neg hv']
  simp only [hc]

theorem post_noform_eq {w : Wizard} {req : Request}
    (h1 : wizard_action req ≠ "cancel") (h2 : wizard_action req ≠ "back")
    (h3 : wizard_action req ≠ "skip") (hf : get_form w req none = none) :
    post w req =
      if wizard_action req = "finish" ∨ is_last_step w req = true then
        (Response.done (get_wizard_data w req), req.session)
      else go_next w req := by
  unfold post
  rw [if_neg h1, if_neg h2, if_neg h3]
  simp only [hf]

theorem Form.valid_cleaned {f : Form} (hv : f.is_valid = true) :
    ∃ pd, f.kwargs.data = some pd ∧ f.form_class.validate pd = some f.cleaned_data := by
  cases hd : f.kwargs.data with
  | none =>
    exfalso
    unfold Form.is_valid at hv
    rw [hd] at hv
    exact Bool.noConfusion (show false = true from hv)
  | some d =>
    have hv2 : (f.form_class.validate d).isSome = true := by
      unfold Form.is_valid at hv
      rw [hd] at hv
      exact hv
    cases hval : f.form_class.validate d with
    | none => rw [hval] at hv2; cases hv2
    | some cd =>
      have hcd : f.cleaned_data = cd := by
        unfold Form.cleaned_data
        rw [hd]
        show (f.form_class.validate d).getD [] = cd
        rw [hval]
        rfl
      exact ⟨d, rfl, by rw [hval, hcd]⟩

theorem go_back_ne_done (w : Wizard) (req : Request) (d : WizardData) :
    go_back w req ≠ Response.done d := by
  unfold go_back
  split
  · split <;> simp
  · split <;> simp

theorem skip_step_done_data {w : Wizard} {req : Request} {d : WizardData}
    (h : (skip_step w req).1 = Response.done d) : d = get_wizard_data w req := by
  unfold skip_step at h
  split at h
  · split at h
    · exact go_next_done_data h
    · simp at h
  · simp at h

theorem skip_done_iff (w : Wizard) (req : Request) :
    (∃ d, (skip_step w req).1 = Response.done d) ↔
      ∃ st, get_current_step w req = some st ∧ st.skip_allowed = true ∧
        (get_active_steps w req).length ≤ get_current_step_index w req + 1 := by
  unfold skip_step
  cases hc : get_current_step w req with
  | none => simp
  | some st =>
    dsimp only
    by_cases hs : st.skip_allowed = true
    · rw [if_pos hs]
      constructor
      · intro hd
        exact ⟨st, rfl, hs, (go_next_done_iff w req).mp hd⟩
      · rintro ⟨st', hst', hsa, hlen⟩
        exact (go_next_done_iff w req).mpr hlen
    · rw [if_neg hs]
      constructor
      · rintro ⟨d, hd⟩
        simp at hd
      · rintro ⟨st', hst', hsa, _⟩
        injection hst' with h'
        exact absurd (h' ▸ hsa) hs

theorem post_session_cases (w : Wizard) (req : Request) :
    (post w req).2 = req.session ∨
    (post w req).2 = clear_wizard_data w req ∨
    ∃ st f, get_current_step w req = some st ∧ get_form w req none = some f ∧
      f.is_valid = true ∧
      (post w req).2 = save_step_data w req st.name f.cleaned_data := by
  by_cases h1 : wizard_action req = "cancel"
  · rw [post_cancel_eq h1]
    exact Or.inr (Or.inl rfl)
  by_cases h2 : wizard_action req = "back"
  · rw [post_back_eq h1 h2]
    exact Or.inl rfl
  by_cases h3 : wizard_action req = "skip"
  · rw [post_skip_eq h1 h2 h3]
    exact Or.inl (skip_step_session w req)
  cases hf : get_form w req none with
  | none =>
    rw [post_noform_eq h1 h2 h3 hf]
    split
    · exact Or.inl rfl
    · exact Or.inl (go_next_session w req)
  | some f =>
    by_cases hv : f.is_valid = false
    · rw [post_invalid_eq h1 h2 h3 hf hv]
      exact Or.inl rfl
    · have hv2 : f.is_valid = true := by
        revert hv
        cases f.is_valid <;> simp
      obtain ⟨st, hc, -, -⟩ := get_form_none_some hf
      rw [post_valid_eq h1 h2 h3 hf hv2 hc]
      refine Or.inr (Or.inr ⟨st, f, hc, rfl, hv2, ?_⟩)
      split
      · rfl
      · exact go_next_session w (after_save w req st f)

theorem dataInv_step {w : Wizard} {req : Request} (ih : dataInv w req.session) :
    dataInv w (post w req).2 := by
  rcases post_session_cases w req with h | h | ⟨st, f, hc, hf, hv, h⟩
  · rw [h]
    exact ih
  · rw [h]
    intro e he
    unfold wizard_data_of clear_wizard_data at he
    rw [dictGet_del_self] at he
    simp at he
  · rw [h]
    intro e he
    unfold wizard_data_of save_step_data save_wizard_data at he
    rw [dictGet_set_self] at he
    simp only [Option.getD_some] at he
    rcases mem_dictSet he with h4 | h4
    · exact ih e h4
    · subst h4
      obtain ⟨st', hc', hfc', hkw⟩ := get_form_none_some hf
      rw [hc] at hc'
      injection hc' with he'
      obtain ⟨pd, hpd, hval⟩ := Form.valid_cleaned hv
      exact ⟨st, get_current_step_mem hc, rfl, f.form_class, he' ▸ hfc', pd, hval⟩

/-- C2: on a POST in the validation path (action none of cancel/back/skip)
whose current step carries a form that rejects the submitted data, `post`
re-renders the same step with the errored (invalid) form attached in the
context, and the session — hence the stored `WizardData`, for every step —
is returned entirely unchanged. -/
theorem c2_invalid_rerenders (w : Wizard) (req : Request) (f : Form)
    (h1 : wizard_action req ≠ "cancel") (h2 : wizard_action req ≠ "back")
    (h3 : wizard_action req ≠ "skip")
    (hf : get_form w req none = some f) (hv : f.is_valid = false) :
    post w req = (Response.render (get_context_data w req (some f)), req.session) ∧
    (get_context_data w req (some f)).form = some f ∧
    (get_context_data w req (some f)).current_step = get_current_step w req ∧
    (post w req).2 = req.session := by
  have hp := post_invalid_eq h1 h2 h3 hf hv
  exact ⟨hp, rfl, rfl, by rw [hp]⟩

/-- Witness for C2 at a concrete wizard whose only step rejects every
submission. -/
theorem c2_invalid_rerenders_witness : (post wBad reqFv).2 = reqFv.session :=
  (c2_invalid_rerenders wBad reqFv (Form.mk fcReject ⟨[], some [("f", "v")]⟩)
    (by decide) (by decide) (by decide) rfl rfl).2.2.2

/-- C3: a successful POST submission for the current step stores exactly the
form's cleaned data under that step's name, so any later request carrying
the resulting session sees that cleaned data as saved step data, and the
form kwargs built for a step of that name carry it as the initial values. -/
theorem c3_round_trip (w : Wizard) (req : Request) (f : Form) (st : WizardStep)
    (h1 : wizard_action req ≠ "cancel") (h2 : wizard_action req ≠ "back")
    (h3 : wizard_action req ≠ "skip")
    (hf : get_form w req none = some f) (hv : f.is_valid = true)
    (hc : get_current_step w req = some st) :
    ∀ req2 : Request, req2.session = (post w req).2 →
      get_step_data w req2 st.name = f.cleaned_data ∧
      ∀ st2 : WizardStep, st2.name = st.name →
        (get_form_kwargs w req2 st2).initial = f.cleaned_data := by
  have hp := post_valid_eq h1 h2 h3 hf hv hc
  have hsess : (post w req).2 = save_step_data w req st.name f.cleaned_data := by
    rw [hp]
    split
    · rfl
    · exact go_next_session w (after_save w req st f)
  intro req2 h2s
  have hsd : get_step_data w req2 st.name = f.cleaned_data := by
    unfold get_step_data get_wizard_data
    rw [h2s, hsess]
    unfold save_step_data save_wizard_data
    rw [dictGet_set_self]
    simp only [Option.getD_some]
    rw [dictGet_set_self]
    rfl
  refine ⟨hsd, fun st2 hn => ?_⟩
  unfold get_form_kwargs
  dsimp only
  rw [hn, hsd]

/-- Witness for C3: submit `f=v` to the echo wizard, then request step `a`
again; the stored data and the rebuilt initial values are the submission. -/
theorem c3_round_trip_witness :
    get_step_data wEcho reqAfterEcho stepA.name = [("f", "v")] ∧
    (get_form_kwargs wEcho reqAfterEcho stepA).initial = [("f", "v")] :=
  ⟨(c3_round_trip wEcho reqFv (Form.mk fcEcho ⟨[], some [("f", "v")]⟩) stepA
      (by decide) (by decide) (by decide) rfl rfl rfl reqAfterEcho rfl).1,
   (c3_round_trip wEcho reqFv (Form.mk fcEcho ⟨[], some [("f", "v")]⟩) stepA
      (by decide) (by decide) (by decide) rfl rfl rfl reqAfterEcho rfl).2 stepA rfl⟩

/-- C6: a POST with the cancel action removes the wizard's session entry,
every subsequent read of the wizard data yields the empty mapping, and the
response is the cancel redirect — regardless of the prior session state. -/
theorem c6_cancel_clears (w : Wizard) (req : Request)
    (h : wizard_action req = "cancel") :
    dictGet (post w req).2 (session_key w) = none ∧
    (∀ req2 : Request, req2.session = (post w req).2 → get_wizard_data w req2 = []) ∧
    (post w req).1 = Response.redirect (get_cancel_url w) := by
  rw [post_cancel_eq h]
  have hd : dictGet (cancel w req).2 (session_key w) = none :=
    dictGet_del_self req.session (session_key w)
  refine ⟨hd, ?_, rfl⟩
  intro req2 h2
  unfold get_wizard_data
  rw [h2, hd]
  rfl

/-- Witness for C6 at a concrete session holding completed step data. -/
theorem c6_cancel_clears_witness :
    dictGet
      (post wEcho
        (reqOf [("wizard_action", "cancel")] [("wizard_wz", [("a", [("f", "v")])])])).2
      (session_key wEcho) = none :=
  (c6_cancel_clears wEcho
    (reqOf [("wizard_action", "cancel")] [("wizard_wz", [("a", [("f", "v")])])])
    (by decide)).1

/-- C7: the active steps are the static step list filtered by condition
truthiness against the current wizard data — a subsequence in declaration
order, containing a step exactly when its condition is absent or truthy —
and they are a pure function of the static list and the wizard data. -/
theorem c7_active_steps (w : Wizard) (req : Request) :
    get_active_steps w req =
      w.steps.filter (fun step => stepActive step (get_wizard_data w req)) ∧
    (get_active_steps w req).Sublist w.steps ∧
    (∀ st : WizardStep, st ∈ get_active_steps w req ↔
      st ∈ w.steps ∧ stepActive st (get_wizard_data w req) = true) ∧
    ∀ (w2 : Wizard) (req2 : Request), w2.steps = w.steps →
      get_wizard_data w2 req2 = get_wizard_data w req →
      get_active_steps w2 req2 = get_active_steps w req := by
  refine ⟨rfl, ?_, fun st => mem_get_active_steps, ?_⟩
  · unfold get_active_steps
    exact List.filter_sublist _
  · intro w2 req2 hs hd
    unfold get_active_steps
    rw [hs, hd]

/-- C9: wizards with distinct names read only their own session entry, and
none of `save_wizard_data`, `save_step_data`, `clear_wizard_data`, `cancel`
performed by one wizard changes what the other wizard reads. -/
theorem c9_wizard_isolation (w1 w2 : Wizard)
    (h : w1.wizard_name ≠ w2.wizard_name) :
    (∀ req req' : Request,
      dictGet req.session (session_key w1) = dictGet req'.session (session_key w1) →
      get_wizard_data w1 req = get_wizard_data w1 req') ∧
    (∀ (req : Request) (d : WizardData),
      get_wizard_data w2 { req with session := save_wizard_data w1 req d } =
        get_wizard_data w2 req) ∧
    (∀ (req : Request) (n : String) (d : FieldData),
      get_wizard_data w2 { req with session := save_step_data w1 req n d } =
        get_wizard_data w2 req) ∧
    (∀ req : Request,
      get_wizard_data w2 { req with session := clear_wizard_data w1 req } =
        get_wizard_data w2 req) ∧
    (∀ req : Request,
      get_wizard_data w2 { req with session := (cancel w1 req).2 } =
        get_wizard_data w2 req) := by
  have hk : session_key w1 ≠ session_key w2 := fun he => h (session_key_inj he)
  refine ⟨?_, ?_, ?_, ?_, ?_⟩
  · intro req req' he
    unfold get_wizard_data
    rw [he]
  · intro req d
    unfold get_wizard_data save_wizard_data
    dsimp only
    rw [dictGet_set_ne _ _ hk]
  · intro req n d
    unfold get_wizard_data save_step_data save_wizard_data
    dsimp only
    rw [dictGet_set_ne _ _ hk]
  · intro req
    unfold get_wizard_data clear_wizard_data
    dsimp only
    rw [dictGet_del_ne _ hk]
  · intro req
    unfold get_wizard_data cancel clear_wizard_data
    dsimp only
    rw [dictGet_del_ne _ hk]

/-- Witness for C9: a save through wizard `wa` leaves wizard `wb`'s view of
a shared session unchanged. -/
theorem c9_wizard_isolation_witness :
    get_wizard_data (⟨"wb", []⟩ : Wizard)
      { reqFv with
        session := save_wizard_data (⟨"wa", []⟩ : Wizard) reqFv [("s", [("f", "v")])] } =
      get_wizard_data (⟨"wb", []⟩ : Wizard) reqFv :=
  (c9_wizard_isolation ⟨"wa", []⟩ ⟨"wb", []⟩ (by decide)).2.1 reqFv [("s", [("f", "v")])]

/-- C5: in every reachable session state, each `WizardData` entry belongs to
a declared step carrying a form whose validator accepted some submission
with exactly that cleaned data; and `save_step_data` overwrites the named
step's entry wholesale while leaving every other step's entry unchanged. -/
theorem c5_data_invariant :
    (∀ (w : Wizard) (s : Session), Reachable w s → dataInv w s) ∧
    (∀ (w : Wizard) (req : Request) (name : String) (cd : FieldData),
      dictGet (wizard_data_of w (save_step_data w req name cd)) name = some cd ∧
      ∀ n, n ≠ name →
        dictGet (wizard_data_of w (save_step_data w req name cd)) n =
          dictGet (get_wizard_data w req) n) := by
  constructor
  · intro w s h
    induction h with
    | init s h0 =>
      intro e he
      unfold wizard_data_of at he
      rw [h0] at he
      simp at he
    | step req h ih => exact dataInv_step ih
  · intro w req name cd
    have hw : wizard_data_of w (save_step_data w req name cd) =
        dictSet (get_wizard_data w req) name cd := by
      unfold wizard_data_of save_step_data save_wizard_data
      rw [dictGet_set_self]
      rfl
    constructor
    · rw [hw, dictGet_set_self]
    · intro n hn
      rw [hw, dictGet_set_ne _ _ (Ne.symm hn)]

/-- Witness for C5: the empty session is reachable and satisfies the
invariant, and a concrete save stores exactly the given cleaned data. -/
theorem c5_data_invariant_witness :
    dataInv wEcho [] ∧
    dictGet (wizard_data_of wEcho (save_step_data wEcho reqFv "a" [("f", "v")])) "a" =
      some [("f", "v")] :=
  ⟨c5_data_invariant.1 wEcho [] (Reachable.init [] rfl),
   (c5_data_invariant.2 wEcho reqFv "a" [("f", "v")]).1⟩

/-- C8: when every declared step is inactive against the current data, there
is no current step and no form, `is_last_step` holds vacuously, and a POST
with the default action (no `wizard_action` parameter) immediately invokes
the completion handler with the current wizard data, with no validation. -/
theorem c8_all_inactive (w : Wizard) (req : Request)
    (hcond : ∀ st ∈ w.steps, stepActive st (get_wizard_data w req) = false)
    (hact : dictGet req.POST "wizard_action" = none) :
    get_current_step w req = none ∧
    get_form w req none = none ∧
    is_last_step w req = true ∧
    post w req = (Response.done (get_wizard_data w req), req.session) := by
  have hempty : get_active_steps w req = [] := by
    unfold get_active_steps
    rw [List.filter_eq_nil_iff]
    intro st hst
    simp [hcond st hst]
  have haction : wizard_action req = "next" := by
    unfold wizard_action
    rw [hact]
    rfl
  have hcur : get_current_step w req = none := by
    unfold get_current_step
    rw [hempty]
    rfl
  have hform : get_form w req none = none := by
    unfold get_form
    dsimp only
    rw [hcur]
  have hlast : is_last_step w req = true := by
    rw [is_last_step_iff, hempty]
    simp
  refine ⟨hcur, hform, hlast, ?_⟩
  rw [post_noform_eq (by rw [haction]; decide) (by rw [haction]; decide)
    (by rw [haction]; decide) hform]
  rw [if_pos (Or.inr hlast)]

/-- Witness for C8 at a wizard whose only step's condition is false. -/
theorem c8_all_inactive_witness :
    post wOff (reqOf [] []) = (Response.done [], []) :=
  (c8_all_inactive wOff (reqOf [] [])
    (by
      intro st hst
      rw [show wOff.steps = [stepOff] from rfl, List.mem_singleton] at hst
      subst hst
      rfl)
    rfl).2.2.2

/-- C4 (amended): for a request carrying a nonempty step-name parameter, the
resolved index is 0 when the name matches no active step, and when it does
match, the index of a matching active step (the first match) is returned.
An empty-string parameter is treated by Python truthiness as absent and
falls back to 0 even if an active step is named by the empty string (see
the counterexample). -/
theorem c4_step_param_resolution (w : Wizard) (req : Request) (sn : String)
    (hsn : step_name_param req = some sn) (hne : sn ≠ "") :
    ((∀ st ∈ get_active_steps w req, st.name ≠ sn) →
      get_current_step_index w req = 0) ∧
    ((∃ st ∈ get_active_steps w req, st.name = sn) →
      ∃ h : get_current_step_index w req < (get_active_steps w req).length,
        ((get_active_steps w req).get
          ⟨get_current_step_index w req, h⟩).name = sn) := by
  constructor
  · intro hnone
    unfold get_current_step_index
    rw [hsn]
    dsimp only
    rw [if_neg hne, find_step_index_none hnone]
  · intro hex
    obtain ⟨i, hfi, hi, hname⟩ := find_step_index_found hex
    have hidx : get_current_step_index w req = i := by
      unfold get_current_step_index
      rw [hsn]
      dsimp only
      rw [if_neg hne, hfi]
    rw [hidx]
    exact ⟨hi, hname⟩

/-- Witness for C4: a forged step name matching no active step resolves to
index 0. -/
theorem c4_step_param_resolution_witness :
    get_current_step_index wAB reqStepZ = 0 :=
  (c4_step_param_resolution wAB reqStepZ "zzz" rfl (by decide)).1 (by decide)

/-- C4 counterexample: the request carries the step-name parameter `""`
(`current_step` POST field), an active step named `""` sits at index 1, yet
`get_current_step_index` returns 0 — the claim's match clause fails because
Python's truthiness test discards the empty-string parameter. -/
theorem c4_counterexample :
    step_name_param reqEmptyName = some "" ∧
    (get_active_steps wNames reqEmptyName)[1]? = some (stepPlain "") ∧
    get_current_step_index wNames reqEmptyName = 0 :=
  ⟨rfl, rfl, rfl⟩

theorem resolve_attrs_short {attrs : List String} {v : PyVal}
    (h : ∃ i, i < attrs.length ∧ isNone (chainAttrs v (attrs.take i)) = true) :
    resolve_attrs v attrs = PyVal.none := by
  induction attrs generalizing v with
  | nil =>
    obtain ⟨i, hi, -⟩ := h
    simp at hi
  | cons a rest ih =>
    obtain ⟨i, hi, hnone⟩ := h
    by_cases hv : isNone v = true
    · unfold resolve_attrs
      rw [if_pos hv]
    · cases i with
      | zero =>
        simp only [List.take_zero, chainAttrs] at hnone
        exact absurd hnone hv
      | succ j =>
        unfold resolve_attrs
        rw [if_neg hv]
        apply ih
        refine ⟨j, by simpa using hi, ?_⟩
        simpa [chainAttrs] using hnone

theorem resolve_attrs_complete {attrs : List String} {v : PyVal}
    (h : ∀ i, i < attrs.length → isNone (chainAttrs v (attrs.take i)) = false) :
    resolve_attrs v attrs = maybeCall (chainAttrs v attrs) := by
  induction attrs generalizing v with
  | nil => rfl
  | cons a rest ih =>
    have h0 : isNone v = false := by
      have h00 := h 0 (by simp)
      simpa [chainAttrs] using h00
    unfold resolve_attrs
    rw [if_neg (by simp [h0])]
    rw [show chainAttrs v (a :: rest) = chainAttrs (pyGetattr v a) rest from rfl]
    apply ih
    intro i hi
    have hs := h (i + 1) (by simpa using hi)
    simpa [chainAttrs] using hs

/-- C10: `get_field_value` walks the dotted path in order; as soon as any
intermediate traversal value is `None` — which is also what an absent
attribute yields via `getattr(·, ·, None)` — it short-circuits to `None`,
the empty placeholder rendered by the table layer, without raising (the
embedding is a total function); when no intermediate value is `None`, the
final traversed value is returned, invoked first if it is callable. -/
theorem c10_field_path (obj : PyVal) (field_path : String) :
    ((∃ i, i < (splitDot field_path).length ∧
        isNone (chainAttrs obj ((splitDot field_path).take i)) = true) →
      get_field_value obj field_path = PyVal.none) ∧
    ((∀ i, i < (splitDot field_path).length →
        isNone (chainAttrs obj ((splitDot field_path).take i)) = false) →
      get_field_value obj field_path = maybeCall (chainAttrs obj (splitDot field_path))) :=
  ⟨fun h => resolve_attrs_short h, fun h => resolve_attrs_complete h⟩

/-- Witness for C10: `a.b` short-circuits to `None` on an object whose `a`
is `None`, and fully resolves (invoking the trailing callable) on an object
where every intermediate value is present. -/
theorem c10_field_path_witness :
    get_field_value (PyVal.obj [("a", PyVal.none)]) "a.b" = PyVal.none ∧
    get_field_value
        (PyVal.obj [("a", PyVal.obj [("b", PyVal.callable (PyVal.str "x"))])]) "a.b" =
      maybeCall (chainAttrs
        (PyVal.obj [("a", PyVal.obj [("b", PyVal.callable (PyVal.str "x"))])])
        (splitDot "a.b")) :=
  ⟨(c10_field_path (PyVal.obj [("a", PyVal.none)]) "a.b").1 ⟨1, by decide, rfl⟩,
   (c10_field_path (PyVal.obj [("a", PyVal.obj [("b", PyVal.callable (PyVal.str "x"))])])
      "a.b").2 (by decide)⟩

/-- C1 (amended): on a POST, the completion handler is invoked exactly when
either (a) the action is `skip`, the current step exists, allows skipping
and is the last active step (completion without any submit or validation),
or (b) the action is none of cancel/back/skip and — when there is no form —
the action is `finish` or the current step is last, or — when the current
step's form validates — the action is `finish` or the step is last as
evaluated against the session already updated by the save; whenever the
handler is invoked it receives the full stored wizard data of the resulting
session. -/
theorem c1_completion_characterization (w : Wizard) (req : Request) :
    ((∃ d, (post w req).1 = Response.done d) ↔
      (wizard_action req = "skip" ∧
        ∃ st, get_current_step w req = some st ∧ st.skip_allowed = true ∧
          is_last_step w req = true) ∨
      (wizard_action req ≠ "cancel" ∧ wizard_action req ≠ "back" ∧
        wizard_action req ≠ "skip" ∧
        ((get_form w req none = none ∧
            (wizard_action req = "finish" ∨ is_last_step w req = true)) ∨
          (∃ st f, get_current_step w req = some st ∧
            get_form w req none = some f ∧ f.is_valid = true ∧
            (wizard_action req = "finish" ∨
              is_last_step w (after_save w req st f) = true))))) ∧
    ∀ d, (post w req).1 = Response.done d → d = wizard_data_of w (post w req).2 := by
  by_cases h1 : wizard_action req = "cancel"
  · rw [post_cancel_eq h1]
    have hne : ∀ d, ¬ ((cancel w req).1 = Response.done d) := by
      intro d hd
      exact Response.noConfusion
        (show Response.redirect (get_cancel_url w) = Response.done d from hd)
    constructor
    · constructor
      · rintro ⟨d, hd⟩
        exact absurd hd (hne d)
      · rintro (⟨hsk, -⟩ | ⟨hnc, -⟩)
        · exact absurd (h1.symm.trans hsk) (by decide)
        · exact absurd h1 hnc
    · intro d hd
      exact absurd hd (hne d)
  by_cases h2 : wizard_action req = "back"
  · rw [post_back_eq h1 h2]
    constructor
    · constructor
      · rintro ⟨d, hd⟩
        exact absurd hd (go_back_ne_done w req d)
      · rintro (⟨hsk, -⟩ | ⟨-, hnb, -⟩)
        · exact absurd (h2.symm.trans hsk) (by decide)
        · exact absurd h2 hnb
    · intro d hd
      exact absurd hd (go_back_ne_done w req d)
  by_cases h3 : wizard_action req = "skip"
  · rw [post_skip_eq h1 h2 h3]
    constructor
    · rw [skip_done_iff]
      constructor
      · rintro ⟨st, hc, hs, hlen⟩
        exact Or.inl ⟨h3, st, hc, hs, (is_last_step_iff w req).mpr hlen⟩
      · rintro (⟨-, st, hc, hs, hlast⟩ | ⟨-, -, hns, -⟩)
        · exact ⟨st, hc, hs, (is_last_step_iff w req).mp hlast⟩
        · exact absurd h3 hns
    · intro d hd
      rw [skip_step_done_data hd, skip_step_session]
      rfl
  cases hf : get_form w req none with
  | none =>
    rw [post_noform_eq h1 h2 h3 hf]
    by_cases hfin : wizard_action req = "finish" ∨ is_last_step w req = true
    · rw [if_pos hfin]
      constructor
      · constructor
        · intro _
          exact Or.inr ⟨h1, h2, h3, Or.inl ⟨rfl, hfin⟩⟩
        · intro _
          exact ⟨get_wizard_data w req, rfl⟩
      · intro d hd
        have hd2 : Response.done (get_wizard_data w req) = Response.done d := hd
        injection hd2 with he
        exact he.symm
    · rw [if_neg hfin]
      push_neg at hfin
      obtain ⟨hnf, hnl⟩ := hfin
      have hnodone : ¬ ∃ d, (go_next w req).1 = Response.done d := by
        rw [go_next_done_iff]
        intro hlen
        exact hnl ((is_last_step_iff w req).mpr hlen)
      constructor
      · constructor
        · intro hd
          exact absurd hd hnodone
        · rintro (⟨hsk, -⟩ | ⟨-, -, -, (⟨-, hfin2⟩ | ⟨st, f, -, hf2, -, -⟩)⟩)
          · exact absurd hsk h3
          · rcases hfin2 with h | h
            · exact absurd h hnf
            · exact absurd h hnl
          · exact Option.noConfusion hf2
      · intro d hd
        rw [go_next_done_data hd, go_next_session]
        rfl
  | some f =>
    by_cases hv : f.is_valid = false
    · rw [post_invalid_eq h1 h2 h3 hf hv]
      have hne : ∀ d,
          ¬ ((Response.render (get_context_data w req (some f)), req.session).1 =
            Response.done d) := by
        intro d hd
        exact Response.noConfusion
          (show Response.render (get_context_data w req (some f)) = Response.done d from hd)
      constructor
      · constructor
        · rintro ⟨d, hd⟩
          exact absurd hd (hne d)
        · rintro (⟨hsk, -⟩ | ⟨-, -, -, (⟨hf2, -⟩ | ⟨st, f2, -, hf2, hv2, -⟩)⟩)
          · exact absurd hsk h3
          · exact Option.noConfusion hf2
          · injection hf2 with he
            rw [← he, hv] at hv2
            exact Bool.noConfusion hv2
      · intro d hd
        exact absurd hd (hne d)
    · have hv2 : f.is_valid = true := by
        revert hv
        cases f.is_valid <;> simp
      obtain ⟨st, hc, -, -⟩ := get_form_none_some hf
      rw [post_valid_eq h1 h2 h3 hf hv2 hc]
      by_cases hfin : wizard_action req = "finish" ∨
        is_last_step w (after_save w req st f) = true
      · rw [if_pos hfin]
        constructor
        · constructor
          · intro _
            exact Or.inr ⟨h1, h2, h3, Or.inr ⟨st, f, hc, rfl, hv2, hfin⟩⟩
          · intro _
            exact ⟨get_wizard_data w (after_save w req st f), rfl⟩
        · intro d hd
          have hd2 : Response.done (get_wizard_data w (after_save w req st f)) =
              Response.done d := hd
          injection hd2 with he
          exact he.symm
      · rw [if_neg hfin]
        push_neg at hfin
        obtain ⟨hnf, hnl⟩ := hfin
        have hnodone : ¬ ∃ d, (go_next w (after_save w req st f)).1 = Response.done d := by
          rw [go_next_done_iff]
          intro hlen
          exact hnl ((is_last_step_iff w (after_save w req st f)).mpr hlen)
        constructor
        · constructor
          · intro hd
            exact absurd hd hnodone
          · rintro (⟨hsk, -⟩ | ⟨-, -, -, (⟨hf2, -⟩ | ⟨st2, f2, hc2, hf2, -, hfin2⟩)⟩)
            · exact absurd hsk h3
            · exact Option.noConfusion hf2
            · injection hf2 with he
              rw [hc] at hc2
              injection hc2 with he2
              subst he
              subst he2
              rcases hfin2 with h | h
              · exact absurd h hnf
              · exact absurd h hnl
        · intro d hd
          rw [go_next_done_data hd, go_next_session]
          rfl

/-- C1 counterexample: a POST whose action is `skip`, on a wizard whose
single (hence last) active step is formless and skippable, invokes the
completion handler although the trigger is neither an explicit `finish`
action nor a (successful) submit — no validation ran at all — refuting
"for every other POST the completion handler is not invoked". -/
theorem c1_counterexample :
    (post wSkip (reqOf [("wizard_action", "skip")] [])).1 = Response.done [] ∧
    wizard_action (reqOf [("wizard_action", "skip")] []) = "skip" ∧
    wizard_action (reqOf [("wizard_action", "skip")] []) ≠ "finish" :=
  ⟨rfl, rfl, by decide⟩

end Nitro
